import Mathlib

/-!
Verification of the diagassert evaluation/rendering engine.

This file gives a shallow embedding, in Lean 4, of the parts of the
repository that the specification claims talk about:

* `internal/evaluator/evaluator.go` — the evaluation-tree builder
  (`buildTreeFromAST` and friends, `compareValues`, `compareNumeric`,
  `getNumericValue`, `isTruthy`, `parseLiteral`, `getFieldValue`,
  `callMethod`, `getIndexValue`);
* `internal/formatter/visual.go` (first, current version of the file) —
  the Unicode-width position mapper (`isWideRune`, `visualWidth`,
  `calculateCharPositions`, `byteToVisualPos`), the fallback position
  corrector (`findActualPosition`, `correctVisualPositions`,
  `findOperatorInNode`), the greedy layer assigner
  (`assignVisualLayers`, `canPlaceInLayer`, `rangesOverlap`), the
  renderer (`buildPowerAssertTreeWithLayers`, `buildUnicodeAwareLines`,
  `formatSimpleAssertStyle`) and the pipe-color assigner
  (`simpleHash`, `assignPipeColor`).

Modelling conventions:

* Go `interface{}` values are modelled by the inductive `GoValue`; a Go
  `nil` interface is `Option.none`.  The value universe is large enough
  to exercise every branch the claims mention: booleans, all signed and
  unsigned integer types, both float types, strings, a non-comparable
  type (`[]int`) and a struct type.
* Go machine integers are modelled as `Int`/`Nat`; the only place where
  64-bit overflow matters (the color hash) wraps explicitly through
  `wrap64`.  `float64` values are modelled as rationals `ℚ`; IEEE
  rounding of conversions and NaN are not modelled (all values are
  assumed exactly representable), which no claim depends on.
* Stateful Go code (the global `nodeCounter`) becomes explicit state
  passing: tree builders take and return the counter.
* Reflection (`reflect` package) is modelled on the `GoValue` universe:
  none of the modelled value types has methods, so `callMethod` resolves
  to "absent", exactly as `reflect.Value.MethodByName` does on them.
-/

/-- Go dynamic values (`interface{}`), one constructor per dynamic type that
the evaluator's type switches distinguish.  `vIntSlice` models `[]int`
(a non-comparable Go type, always non-nil here); `vStruct` models a struct
with exported `int` fields. -/
inductive GoValue where
  | vBool (b : Bool)
  | vInt (n : Int)
  | vInt8 (n : Int)
  | vInt16 (n : Int)
  | vInt32 (n : Int)
  | vInt64 (n : Int)
  | vUint (n : Nat)
  | vUint8 (n : Nat)
  | vUint16 (n : Nat)
  | vUint32 (n : Nat)
  | vUint64 (n : Nat)
  | vFloat32 (q : ℚ)
  | vFloat64 (q : ℚ)
  | vString (s : String)
  | vIntSlice (l : List Int)
  | vStruct (fields : List (String × Int))
deriving DecidableEq

/-- The name of the Go dynamic type of a value (`reflect.TypeOf`). -/
def goTypeOf : GoValue → String
  | .vBool _ => "bool"
  | .vInt _ => "int"
  | .vInt8 _ => "int8"
  | .vInt16 _ => "int16"
  | .vInt32 _ => "int32"
  | .vInt64 _ => "int64"
  | .vUint _ => "uint"
  | .vUint8 _ => "uint8"
  | .vUint16 _ => "uint16"
  | .vUint32 _ => "uint32"
  | .vUint64 _ => "uint64"
  | .vFloat32 _ => "float32"
  | .vFloat64 _ => "float64"
  | .vString _ => "string"
  | .vIntSlice _ => "[]int"
  | .vStruct _ => "struct"

/-- `reflect.Type.Comparable()`: slices are not comparable; every other
modelled type is (structs of int fields have comparable field types). -/
def goComparable : GoValue → Bool
  | .vIntSlice _ => false
  | _ => true

/-- `reflect.DeepEqual` on the modelled universe: structural equality.
Two values of distinct dynamic types (distinct constructors) are never
deep-equal, exactly as in Go. -/
def deepEqual (a b : GoValue) : Bool :=
  decide (a = b)

/-- `reflect.Value.IsZero` on the modelled universe (only reached by
`isTruthy` for the types its explicit cases do not catch; a non-nil slice
is never the zero value, a struct is zero iff all fields are zero). -/
def goIsZero : GoValue → Bool
  | .vBool b => !b
  | .vInt n | .vInt8 n | .vInt16 n | .vInt32 n | .vInt64 n => n == 0
  | .vUint n | .vUint8 n | .vUint16 n | .vUint32 n | .vUint64 n => n == 0
  | .vFloat32 q | .vFloat64 q => q == 0
  | .vString s => s == ""
  | .vIntSlice _ => false
  | .vStruct fields => fields.all (fun f => f.2 == 0)

/-- `evaluator.getNumericValue`: widen every signed integer, unsigned
integer and floating-point value to `float64` (modelled as `ℚ`); any other
type yields `nil`. -/
def getNumericValue : GoValue → Option ℚ
  | .vInt n | .vInt8 n | .vInt16 n | .vInt32 n | .vInt64 n => some (n : ℚ)
  | .vUint n | .vUint8 n | .vUint16 n | .vUint32 n | .vUint64 n => some (n : ℚ)
  | .vFloat32 q | .vFloat64 q => some q
  | _ => none

/-- `evaluator.compareNumeric`: compare the two widened values; `false`
when either side is not numeric. -/
def compareNumeric (left right : GoValue) (operator : String) : Bool :=
  match getNumericValue left, getNumericValue right with
  | some l, some r =>
    match operator with
    | "<" => decide (l < r)
    | "<=" => decide (l ≤ r)
    | ">" => decide (l > r)
    | ">=" => decide (l ≥ r)
    | _ => false
  | _, _ => false

/-- `evaluator.compareValues`.  `none` models a `nil` interface value. -/
def compareValues (left right : Option GoValue) (operator : String) : Bool :=
  match left, right with
  | none, _ | _, none =>
    -- Go: if left == nil || right == nil { ... }
    match operator with
    | "==" => left == right
    | "!=" => left != right
    | _ => false
  | some l, some r =>
    if !(goComparable l) || !(goComparable r) then false
    else
      match operator with
      | "==" => deepEqual l r
      | "!=" => !(deepEqual l r)
      | "<" | "<=" | ">" | ">=" => compareNumeric l r operator
      | _ => false

/-- `evaluator.isTruthy`; `none` models a `nil` interface value. -/
def isTruthy : Option GoValue → Bool
  | none => false
  | some v =>
    match v with
    | .vBool b => b
    | .vInt n | .vInt8 n | .vInt16 n | .vInt32 n | .vInt64 n => n != 0
    | .vUint n | .vUint8 n | .vUint16 n | .vUint32 n | .vUint64 n => n != 0
    | .vFloat32 q | .vFloat64 q => q != 0
    | .vString s => s != ""
    | other => !(goIsZero other)

/-- The UTF-8 bytes of a string, as a list (Go strings are byte slices). -/
def strBytes (s : String) : List UInt8 :=
  s.toUTF8.data.toList

/-- Decimal digits prefix of a character list. -/
def takeDigits (cs : List Char) : List Char :=
  cs.takeWhile (fun c => c.isDigit)

/-- Model of `fmt.Sscanf(text, "%d", &val)`: an optional sign followed by
at least one decimal digit; trailing characters are ignored (Sscanf does
not fail on unconsumed input). -/
def goSscanInt (s : String) : Option Int :=
  let p : Bool × List Char :=
    match s.data with
    | '-' :: r => (true, r)
    | '+' :: r => (false, r)
    | r => (false, r)
  let ds := takeDigits p.2
  if ds.isEmpty then none
  else
    let n : Nat := ds.foldl (fun a c => a * 10 + (c.toNat - 48)) 0
    some (if p.1 then -(n : Int) else (n : Int))

/-- Model of `fmt.Sscanf(text, "%f", &val)`: optional sign, integer part,
optional fraction part; at least one digit overall. -/
def goSscanFloat (s : String) : Option ℚ :=
  let p : Bool × List Char :=
    match s.data with
    | '-' :: r => (true, r)
    | '+' :: r => (false, r)
    | r => (false, r)
  let ip := takeDigits p.2
  let rest := p.2.drop ip.length
  let ipn : Nat := ip.foldl (fun a c => a * 10 + (c.toNat - 48)) 0
  let build : Nat → Nat → ℚ := fun fn fk =>
    let q : ℚ := (ipn : ℚ) + (fn : ℚ) / ((10 : ℚ) ^ fk)
    if p.1 then -q else q
  match rest with
  | '.' :: r =>
    let fp := takeDigits r
    if ip.isEmpty && fp.isEmpty then none
    else some (build (fp.foldl (fun a c => a * 10 + (c.toNat - 48)) 0) fp.length)
  | _ => if ip.isEmpty then none else some (build 0 0)

/-- The kind tag of a Go basic literal (`token.INT`, `token.FLOAT`, ...). -/
inductive LitKind where
  | int | float | string | char | other
deriving DecidableEq

/-- `evaluator.parseLiteral`.  String literals are stripped of their first
and last byte; a char literal takes the byte at index 1 (as Go does). -/
def parseLiteral (kind : LitKind) (text : String) : GoValue :=
  match kind with
  | .int =>
    match goSscanInt text with
    | some n => .vInt n
    | none => .vString text
  | .float =>
    match goSscanFloat text with
    | some q => .vFloat64 q
    | none => .vString text
  | .string =>
    if text.utf8ByteSize ≥ 2 then .vString ((text.drop 1).dropRight 1)
    else .vString text
  | .char =>
    if text.utf8ByteSize ≥ 3 then
      match strBytes text with
      | _ :: b :: _ => .vInt32 (Int.ofNat b.toNat)
      | _ => .vInt32 0
    else .vInt32 0
  | .other => .vString text

/-- `evaluator.getFieldValue`: extract an exported field from a struct
value; absent for non-struct values or missing fields (the modelled
universe has no pointer values, so the pointer-deref branch is inert). -/
def getFieldValue (obj : GoValue) (fieldName : String) : Option GoValue :=
  match obj with
  | .vStruct fields =>
    match fields.find? (fun f => f.1 == fieldName) with
    | some f => some (.vInt f.2)
    | none => none
  | _ => none

/-- `evaluator.callMethod`: a zero-argument method call via reflection.
No modelled value type (bool, ints, floats, string, []int, plain struct)
has any method, so `MethodByName` is never valid and the call yields
`nil`. -/
def callMethod (_obj : GoValue) (_methodName : String) : Option GoValue :=
  none

/-- `evaluator.getIndexValue`: index a slice value with an `int` index;
out-of-range or type-mismatched access yields `nil`. -/
def getIndexValue (obj index : GoValue) : Option GoValue :=
  match obj with
  | .vIntSlice l =>
    match index with
    | .vInt i =>
      if i < 0 then none
      else
        match l.get? i.toNat with
        | some x => some (.vInt x)
        | none => none
    | _ => none
  | _ => none

/-- The parsed Go expression AST (`go/ast`), restricted to the node kinds
`buildTreeFromAST` switches on.  `callSel` is a `CallExpr` whose `Fun` is
a `SelectorExpr`; `callOther` is any other `CallExpr`; `unknown` is the
default branch (carrying the `%T` type name the code would print). -/
inductive GoExpr where
  | ident (name : String)
  | basicLit (kind : LitKind) (text : String)
  | binary (x : GoExpr) (op : String) (y : GoExpr)
  | unary (op : String) (x : GoExpr)
  | paren (x : GoExpr)
  | selector (x : GoExpr) (sel : String)
  | callSel (x : GoExpr) (methodName : String)
  | callOther
  | indexE (x : GoExpr) (idx : GoExpr)
  | unknown (typeName : String)
deriving DecidableEq

/-- `evaluator.EvaluationTree`.  Fields in source order; `typ` is the Go
field `Type` (a Lean keyword), `id` is `ID`. -/
inductive EvaluationTree where
  | mk (id : Nat) (typ : String) (operator : String)
      (left right : Option EvaluationTree)
      (value : Option GoValue) (result : Bool) (text : String)
      (children : List EvaluationTree)

def EvaluationTree.id : EvaluationTree → Nat
  | .mk i _ _ _ _ _ _ _ _ => i

def EvaluationTree.typ : EvaluationTree → String
  | .mk _ t _ _ _ _ _ _ _ => t

def EvaluationTree.operator : EvaluationTree → String
  | .mk _ _ o _ _ _ _ _ _ => o

def EvaluationTree.left : EvaluationTree → Option EvaluationTree
  | .mk _ _ _ l _ _ _ _ _ => l

def EvaluationTree.right : EvaluationTree → Option EvaluationTree
  | .mk _ _ _ _ r _ _ _ _ => r

def EvaluationTree.value : EvaluationTree → Option GoValue
  | .mk _ _ _ _ _ v _ _ _ => v

def EvaluationTree.result : EvaluationTree → Bool
  | .mk _ _ _ _ _ _ r _ _ => r

def EvaluationTree.text : EvaluationTree → String
  | .mk _ _ _ _ _ _ _ t _ => t

def EvaluationTree.children : EvaluationTree → List EvaluationTree
  | .mk _ _ _ _ _ _ _ _ c => c

/-- The name→value lookup (`map[string]interface{}`); an entry whose
second component is `none` models a key explicitly bound to `nil`. -/
def VarMap : Type := List (String × Option GoValue)

/-- Go map read `value, exists := vars[name]`: `none` means the key
is missing (`exists == false`). -/
def lookupVar (vars : VarMap) (name : String) : Option (Option GoValue) :=
  (List.find? (fun p => p.1 == name) vars).map (fun p => p.2)

/-- `evaluator.getBinaryExprType`. -/
def getBinaryExprType (operator : String) : String :=
  match operator with
  | "&&" | "||" => "logical"
  | "==" | "!=" | "<" | "<=" | ">" | ">=" => "comparison"
  | _ => "binary"

/-- `evaluator.evaluateBinaryExpr`. -/
def evaluateBinaryExpr (left right : EvaluationTree) (operator : String) : Bool :=
  match operator with
  | "&&" => left.result && right.result
  | "||" => left.result || right.result
  | "==" => compareValues left.value right.value "=="
  | "!=" => compareValues left.value right.value "!="
  | "<" => compareValues left.value right.value "<"
  | "<=" => compareValues left.value right.value "<="
  | ">" => compareValues left.value right.value ">"
  | ">=" => compareValues left.value right.value ">="
  | _ => false

/-- `evaluator.buildIdentTree`.  The global `nodeCounter` is passed
explicitly: the returned `Nat` is its new value, and `getNextNodeID`
becomes `c + 1`. -/
def buildIdentTree (vars : VarMap) (name : String) (c : Nat) :
    EvaluationTree × Nat :=
  let lk := lookupVar vars name
  let value : Option GoValue := match lk with | some v => v | none => none
  let found : Bool := lk.isSome
  (.mk (c + 1) "identifier" "" none none value (found && isTruthy value) name [], c + 1)

/-- `evaluator.buildLiteralTree`. -/
def buildLiteralTree (kind : LitKind) (text : String) (c : Nat) :
    EvaluationTree × Nat :=
  let value := parseLiteral kind text
  (.mk (c + 1) "literal" "" none none (some value) (isTruthy (some value)) text [], c + 1)

/-- `evaluator.buildTreeFromAST` with the bodies of `buildBinaryExprTree`,
`buildUnaryExprTree`, `buildSelectorTree`, `buildCallTree` and
`buildIndexTree` inlined at their call sites (each builds its children
first, then takes the next node ID, exactly as the Go code does).
A `ParenExpr` recurses into its inner expression without creating a node
or consuming an ID. -/
def buildTreeFromAST (vars : VarMap) : GoExpr → Nat → EvaluationTree × Nat
  | .ident name, c => buildIdentTree vars name c
  | .basicLit kind text, c => buildLiteralTree kind text c
  | .binary x op y, c =>
    -- buildBinaryExprTree
    let lp := buildTreeFromAST vars x c
    let rp := buildTreeFromAST vars y lp.2
    let result := evaluateBinaryExpr lp.1 rp.1 op
    (.mk (rp.2 + 1) (getBinaryExprType op) op (some lp.1) (some rp.1) none result
      (lp.1.text ++ " " ++ op ++ " " ++ rp.1.text) [], rp.2 + 1)
  | .unary op x, c =>
    -- buildUnaryExprTree
    let operand := buildTreeFromAST vars x c
    let result := if op == "!" then !operand.1.result else operand.1.result
    (.mk (operand.2 + 1) "unary" op (some operand.1) none none result
      (op ++ operand.1.text) [], operand.2 + 1)
  | .paren x, c => buildTreeFromAST vars x c
  | .selector x sel, c =>
    -- buildSelectorTree
    let base := buildTreeFromAST vars x c
    let text := base.1.text ++ "." ++ sel
    let fv : Option GoValue :=
      match base.1.value with
      | some bv => getFieldValue bv sel
      | none => none
    let result := match fv with | some v => isTruthy (some v) | none => false
    (.mk (base.2 + 1) "selector" "" (some base.1) none fv result text [], base.2 + 1)
  | .callSel x methodName, c =>
    -- buildCallTree, SelectorExpr branch
    let base := buildTreeFromAST vars x c
    let text := base.1.text ++ "." ++ methodName ++ "()"
    let mv : Option GoValue :=
      match base.1.value with
      | some bv => callMethod bv methodName
      | none => none
    let result := match mv with | some v => isTruthy (some v) | none => false
    (.mk (base.2 + 1) "method_call" "" (some base.1) none mv result text [], base.2 + 1)
  | .callOther, c =>
    -- buildCallTree, default branch
    (.mk (c + 1) "call" "" none none none false "function_call" [], c + 1)
  | .indexE x idx, c =>
    -- buildIndexTree
    let base := buildTreeFromAST vars x c
    let it := buildTreeFromAST vars idx base.2
    let text := base.1.text ++ "[" ++ it.1.text ++ "]"
    let iv : Option GoValue :=
      match base.1.value, it.1.value with
      | some b, some ix => getIndexValue b ix
      | _, _ => none
    let result := match iv with | some v => isTruthy (some v) | none => false
    (.mk (it.2 + 1) "index" "" (some base.1) (some it.1) iv result text [], it.2 + 1)
  | .unknown typeName, c =>
    -- default branch of the switch
    (.mk (c + 1) "unknown" "" none none none false typeName [], c + 1)

/-- `evaluator.buildEvaluationTree` on a parse failure: a single node of
type `error` with `Result = false` and the raw text (the counter was just
reset to 0, so the node gets ID 1). -/
def errorTree (expr : String) : EvaluationTree :=
  .mk 1 "error" "" none none none false expr []

/-- C1: for a comparison node with both child values present, the ordering
operators go through numeric coercion (every signed integer, unsigned
integer and floating-point operand is widened, by `getNumericValue`, to a
double-precision value before `<`, `<=`, `>`, `>=` are evaluated); `==` and
`!=` are deep structural equality (respectively its negation) without
coercion, so operands of distinct dynamic types are never equal; and if
either operand's type is not comparable the result is `false`.  The last
conjunct ties this to the tree: a comparison node's `Result` is
`compareValues` of its children's values. -/
theorem C1_comparison_semantics :
    (∀ n : Int,
      getNumericValue (GoValue.vInt n) = some (n : ℚ) ∧
      getNumericValue (GoValue.vInt8 n) = some (n : ℚ) ∧
      getNumericValue (GoValue.vInt16 n) = some (n : ℚ) ∧
      getNumericValue (GoValue.vInt32 n) = some (n : ℚ) ∧
      getNumericValue (GoValue.vInt64 n) = some (n : ℚ)) ∧
    (∀ n : Nat,
      getNumericValue (GoValue.vUint n) = some (n : ℚ) ∧
      getNumericValue (GoValue.vUint8 n) = some (n : ℚ) ∧
      getNumericValue (GoValue.vUint16 n) = some (n : ℚ) ∧
      getNumericValue (GoValue.vUint32 n) = some (n : ℚ) ∧
      getNumericValue (GoValue.vUint64 n) = some (n : ℚ)) ∧
    (∀ q : ℚ,
      getNumericValue (GoValue.vFloat32 q) = some q ∧
      getNumericValue (GoValue.vFloat64 q) = some q) ∧
    (∀ l r : GoValue,
      ((goComparable l = false ∨ goComparable r = false) →
        ∀ op, compareValues (some l) (some r) op = false) ∧
      (∀ ql qr : ℚ, getNumericValue l = some ql → getNumericValue r = some qr →
        goComparable l = true → goComparable r = true →
        compareValues (some l) (some r) "<" = decide (ql < qr) ∧
        compareValues (some l) (some r) "<=" = decide (ql ≤ qr) ∧
        compareValues (some l) (some r) ">" = decide (ql > qr) ∧
        compareValues (some l) (some r) ">=" = decide (ql ≥ qr)) ∧
      (goComparable l = true → goComparable r = true →
        compareValues (some l) (some r) "==" = deepEqual l r ∧
        compareValues (some l) (some r) "!=" = !deepEqual l r) ∧
      (goTypeOf l ≠ goTypeOf r → deepEqual l r = false)) ∧
    (∀ vars x y c op, op ∈ ["==", "!=", "<", "<=", ">", ">="] →
      (buildTreeFromAST vars (GoExpr.binary x op y) c).1.result =
        compareValues (buildTreeFromAST vars x c).1.value
          (buildTreeFromAST vars y (buildTreeFromAST vars x c).2).1.value op) := by
  refine ⟨?_, ?_, ?_, ?_, ?_⟩
  · intro n; exact ⟨rfl, rfl, rfl, rfl, rfl⟩
  · intro n; exact ⟨rfl, rfl, rfl, rfl, rfl⟩
  · intro q; exact ⟨rfl, rfl⟩
  · intro l r
    refine ⟨?_, ?_, ?_, ?_⟩
    · intro h op
      rcases h with h | h <;> simp [compareValues, h]
    · intro ql qr hql hqr hcl hcr
      simp [compareValues, hcl, hcr, compareNumeric, hql, hqr]
    · intro hcl hcr
      constructor <;> simp [compareValues, hcl, hcr]
    · intro h
      simp only [deepEqual, decide_eq_false_iff_not]
      intro he
      exact h (by rw [he])
  · intro vars x y c op hop
    fin_cases hop <;>
      simp [buildTreeFromAST, evaluateBinaryExpr, EvaluationTree.result,
        EvaluationTree.value]

/-- Witness for C1 at concrete inputs: a cross-type ordering comparison
goes through numeric widening (int8 3 < uint64 5), equal numbers of
distinct types are not `==`-equal, and a non-comparable operand forces
`false` even for `==` on identical slices. -/
theorem C1_witness :
    compareValues (some (GoValue.vInt8 3)) (some (GoValue.vUint64 5)) "<" = true ∧
    deepEqual (GoValue.vInt 1) (GoValue.vFloat64 1) = false ∧
    compareValues (some (GoValue.vIntSlice [1])) (some (GoValue.vIntSlice [1])) "==" = false := by
  refine ⟨?_, ?_, ?_⟩
  · have h := ((C1_comparison_semantics.2.2.2.1 (GoValue.vInt8 3)
      (GoValue.vUint64 5)).2.1 3 5 rfl rfl rfl rfl).1
    rw [h]; decide
  · exact (C1_comparison_semantics.2.2.2.1 (GoValue.vInt 1)
      (GoValue.vFloat64 1)).2.2.2 (by decide)
  · exact (C1_comparison_semantics.2.2.2.1 (GoValue.vIntSlice [1])
      (GoValue.vIntSlice [1])).1 (Or.inl rfl) "=="

/-- C2: the truthiness function returns the boolean itself for booleans,
`false` exactly for numeric zero (signed, unsigned, floating-point),
`false` exactly for the empty string, `false` for an absent value, and
"not the zero value" for every other type; and an identifier whose name
is missing from the name-to-value lookup gets `Result = false`. -/
theorem C2_truthiness :
    (∀ b, isTruthy (some (GoValue.vBool b)) = b) ∧
    (∀ n : Int,
      (isTruthy (some (GoValue.vInt n)) = false ↔ n = 0) ∧
      (isTruthy (some (GoValue.vInt8 n)) = false ↔ n = 0) ∧
      (isTruthy (some (GoValue.vInt16 n)) = false ↔ n = 0) ∧
      (isTruthy (some (GoValue.vInt32 n)) = false ↔ n = 0) ∧
      (isTruthy (some (GoValue.vInt64 n)) = false ↔ n = 0)) ∧
    (∀ n : Nat,
      (isTruthy (some (GoValue.vUint n)) = false ↔ n = 0) ∧
      (isTruthy (some (GoValue.vUint8 n)) = false ↔ n = 0) ∧
      (isTruthy (some (GoValue.vUint16 n)) = false ↔ n = 0) ∧
      (isTruthy (some (GoValue.vUint32 n)) = false ↔ n = 0) ∧
      (isTruthy (some (GoValue.vUint64 n)) = false ↔ n = 0)) ∧
    (∀ q : ℚ,
      (isTruthy (some (GoValue.vFloat32 q)) = false ↔ q = 0) ∧
      (isTruthy (some (GoValue.vFloat64 q)) = false ↔ q = 0)) ∧
    (∀ s : String, (isTruthy (some (GoValue.vString s)) = false ↔ s = "")) ∧
    isTruthy none = false ∧
    (∀ l, isTruthy (some (GoValue.vIntSlice l)) = !goIsZero (GoValue.vIntSlice l)) ∧
    (∀ fs, isTruthy (some (GoValue.vStruct fs)) = !goIsZero (GoValue.vStruct fs)) ∧
    (∀ vars name c, lookupVar vars name = none →
      (buildIdentTree vars name c).1.result = false) := by
  refine ⟨?_, ?_, ?_, ?_, ?_, rfl, ?_, ?_, ?_⟩
  · intro b; rfl
  · intro n; refine ⟨?_, ?_, ?_, ?_, ?_⟩ <;> simp [isTruthy]
  · intro n; refine ⟨?_, ?_, ?_, ?_, ?_⟩ <;> simp [isTruthy]
  · intro q; constructor <;> simp [isTruthy]
  · intro s; simp [isTruthy]
  · intro l; rfl
  · intro fs; rfl
  · intro vars name c h
    simp [buildIdentTree, h, EvaluationTree.result]

/-- Witness for C2: the identifier `x` with an empty lookup resolves to
`Result = false`. -/
theorem C2_witness :
    (buildIdentTree ([] : VarMap) "x" 0).1.result = false :=
  C2_truthiness.2.2.2.2.2.2.2.2 ([] : VarMap) "x" 0 rfl

/-- C5: a logical node combines its children's results with the standard
boolean operation, and both child subtrees are always built and stored in
the node (`Left`/`Right` are exactly the recursively built operand trees,
whatever the left child's value), so no short-circuit suppresses the right
operand. -/
theorem C5_logical_no_short_circuit :
    ∀ vars x y c op, op = "&&" ∨ op = "||" →
      (buildTreeFromAST vars (GoExpr.binary x op y) c).1.typ = "logical" ∧
      (buildTreeFromAST vars (GoExpr.binary x op y) c).1.left =
        some (buildTreeFromAST vars x c).1 ∧
      (buildTreeFromAST vars (GoExpr.binary x op y) c).1.right =
        some (buildTreeFromAST vars y (buildTreeFromAST vars x c).2).1 ∧
      (buildTreeFromAST vars (GoExpr.binary x op y) c).1.result =
        (if op = "&&"
         then (buildTreeFromAST vars x c).1.result &&
           (buildTreeFromAST vars y (buildTreeFromAST vars x c).2).1.result
         else (buildTreeFromAST vars x c).1.result ||
           (buildTreeFromAST vars y (buildTreeFromAST vars x c).2).1.result) := by
  intro vars x y c op hop
  rcases hop with rfl | rfl <;>
    simp [buildTreeFromAST, evaluateBinaryExpr, getBinaryExprType,
      EvaluationTree.typ, EvaluationTree.left, EvaluationTree.right,
      EvaluationTree.result]

/-- Witness for C5: with `a = true` and `b = false`, the tree for
`a && b` has result `false` and keeps both operand subtrees. -/
theorem C5_witness :
    (buildTreeFromAST [("a", some (GoValue.vBool true)), ("b", some (GoValue.vBool false))]
        (GoExpr.binary (GoExpr.ident "a") "&&" (GoExpr.ident "b")) 0).1.result = false := by
  have h := (C5_logical_no_short_circuit
    [("a", some (GoValue.vBool true)), ("b", some (GoValue.vBool false))]
    (GoExpr.ident "a") (GoExpr.ident "b") 0 "&&" (Or.inl rfl)).2.2.2
  rw [h]; decide

/-- C10: parenthesization is transparent — the evaluation tree built for
`(e)` is identical (same node structure, IDs, values, results and text,
and same final counter) to the tree built for `e`, because a `ParenExpr`
is unwrapped during construction and contributes no node of its own. -/
theorem C10_paren_transparent :
    ∀ vars x c, buildTreeFromAST vars (GoExpr.paren x) c = buildTreeFromAST vars x c := by
  intro vars x c
  rfl

/-- Character ranges, as inclusive code-point intervals. -/
def inRanges (c : Char) (ranges : List (Nat × Nat)) : Bool :=
  ranges.any (fun r => r.1 ≤ c.toNat && c.toNat ≤ r.2)

/-- The complete Hiragana script table of Go's `unicode.Hiragana`
(Unicode 15.0, Go 1.21+): R16 and R32 ranges, all with stride 1. -/
def hiraganaRanges : List (Nat × Nat) :=
  [(0x3041, 0x3096), (0x309D, 0x309F),
   (0x1B001, 0x1B11F), (0x1B132, 0x1B132), (0x1B150, 0x1B152),
   (0x1F200, 0x1F200)]

/-- The complete Katakana script table of Go's `unicode.Katakana`
(Unicode 15.0). -/
def katakanaRanges : List (Nat × Nat) :=
  [(0x30A1, 0x30FA), (0x30FD, 0x30FF), (0x31F0, 0x31FF), (0x32D0, 0x32FE),
   (0x3300, 0x3357), (0xFF66, 0xFF6F), (0xFF71, 0xFF9D),
   (0x1AFF0, 0x1AFF3), (0x1AFF5, 0x1AFFB), (0x1AFFD, 0x1AFFE),
   (0x1B000, 0x1B000), (0x1B120, 0x1B122), (0x1B155, 0x1B155),
   (0x1B164, 0x1B167)]

/-- The complete Han script table of Go's `unicode.Han` (Unicode 15.0):
CJK radicals (U+2E80-2E99, U+2E9B-2EF3), Kangxi radicals
(U+2F00-2FD5), ideographic marks and Hangzhou numerals (U+3005, U+3007,
U+3021-3029, U+3038-303B), the unified blocks and extensions A-H, the
compatibility ideographs, and the tangut-adjacent marks
U+16FE2-16FE3/U+16FF0-16FF1. -/
def hanRanges : List (Nat × Nat) :=
  [(0x2E80, 0x2E99), (0x2E9B, 0x2EF3), (0x2F00, 0x2FD5),
   (0x3005, 0x3005), (0x3007, 0x3007), (0x3021, 0x3029), (0x3038, 0x303B),
   (0x3400, 0x4DBF), (0x4E00, 0x9FFF), (0xF900, 0xFA6D), (0xFA70, 0xFAD9),
   (0x16FE2, 0x16FE3), (0x16FF0, 0x16FF1),
   (0x20000, 0x2A6DF), (0x2A700, 0x2B739), (0x2B740, 0x2B81D),
   (0x2B820, 0x2CEA1), (0x2CEB0, 0x2EBE0), (0x2F800, 0x2FA1D),
   (0x30000, 0x3134A), (0x31350, 0x323AF)]

/-- The complete Hangul script table of Go's `unicode.Hangul`
(Unicode 15.0): jamo, tone marks U+302E-302F, compatibility jamo,
parenthesized and circled Hangul (U+3200-321E, U+3260-327E), extended
jamo, syllables, and half-width forms. -/
def hangulRanges : List (Nat × Nat) :=
  [(0x1100, 0x11FF), (0x302E, 0x302F), (0x3131, 0x318E),
   (0x3200, 0x321E), (0x3260, 0x327E),
   (0xA960, 0xA97C), (0xAC00, 0xD7A3), (0xD7B0, 0xD7C6), (0xD7CB, 0xD7FB),
   (0xFFA0, 0xFFBE), (0xFFC2, 0xFFC7), (0xFFCA, 0xFFCF), (0xFFD2, 0xFFD7),
   (0xFFDA, 0xFFDC)]

/-- `formatter.isWideRune`: a rune is wide iff it is in the Hiragana,
Katakana, Han or Hangul scripts (`unicode.In`), or in the full-width and
half-width forms block `0xFF00..0xFFEF`. -/
def isWideRune (c : Char) : Bool :=
  inRanges c hiraganaRanges || inRanges c katakanaRanges || inRanges c hanRanges ||
    inRanges c hangulRanges || (0xFF00 ≤ c.toNat && c.toNat ≤ 0xFFEF)

/-- The visual width of one rune: 2 for wide runes, 1 otherwise. -/
def charWidth (c : Char) : Nat :=
  if isWideRune c then 2 else 1

/-- `formatter.visualWidth`: sum of the rune widths of a string. -/
def visualWidth (s : String) : Nat :=
  s.data.foldl (fun w c => if isWideRune c then w + 2 else w + 1) 0

/-- `formatter.CharPosition`. -/
structure CharPosition where
  BytePos : Nat
  RunePos : Nat
  VisualPos : Nat
deriving DecidableEq

/-- The loop body of `calculateCharPositions`, with the three running
counters made explicit. -/
def calcCharPosAux : List Char → Nat → Nat → Nat → List CharPosition
  | [], _, _, _ => []
  | c :: cs, bytePos, runePos, visualPos =>
    ⟨bytePos, runePos, visualPos⟩ ::
      calcCharPosAux cs (bytePos + c.utf8Size) (runePos + 1)
        (visualPos + (if isWideRune c then 2 else 1))

/-- `formatter.calculateCharPositions`: per-character position table of a
string (byte offset, rune index, visual column), visual columns advancing
by 2 for wide runes and 1 otherwise. -/
def calculateCharPositions (s : String) : List CharPosition :=
  calcCharPosAux s.data 0 0 0

/-- Total UTF-8 byte size of a character list. -/
def byteSum : List Char → Nat
  | [] => 0
  | c :: cs => c.utf8Size + byteSum cs

/-- Total visual width of a character list. -/
def widthSum : List Char → Nat
  | [] => 0
  | c :: cs => charWidth c + widthSum cs

theorem calcCharPosAux_get? (cs : List Char) :
    ∀ b r v i, i < cs.length →
      (calcCharPosAux cs b r v).get? i =
        some ⟨b + byteSum (cs.take i), r + i, v + widthSum (cs.take i)⟩ := by
  induction cs with
  | nil => intro b r v i h; simp at h
  | cons c cs ih =>
    intro b r v i h
    cases i with
    | zero => simp [calcCharPosAux, byteSum, widthSum]
    | succ j =>
      have hj : j < cs.length := by simpa using h
      simp only [calcCharPosAux, List.get?_cons_succ, List.take_succ_cons,
        byteSum, widthSum]
      rw [ih _ _ _ j hj]
      congr 2
      · omega
      · omega
      · simp [charWidth]
        omega

theorem calcCharPosAux_length :
    ∀ (cs : List Char) b r v, (calcCharPosAux cs b r v).length = cs.length := by
  intro cs
  induction cs with
  | nil => intro b r v; rfl
  | cons c cs ih => intro b r v; simpa [calcCharPosAux] using ih _ _ _

theorem visualWidth_foldl (l : List Char) :
    ∀ a, l.foldl (fun w c => if isWideRune c then w + 2 else w + 1) a = a + widthSum l := by
  induction l with
  | nil => intro a; simp [widthSum]
  | cons c cs ih =>
    intro a
    simp only [List.foldl_cons, widthSum, charWidth]
    rw [ih]
    by_cases h : isWideRune c <;> simp [h] <;> omega

/-- C9: the byte-offset-to-visual-column table assigns entry `i` of a
string the cumulative byte offset and the cumulative visual width of the
first `i` code points, the column advancing by 2 for every code point in
the wide East-Asian ranges (Hiragana, Katakana, Han, Hangul, full-width
forms — `isWideRune`) and by 1 for every other code point; in particular
a 2-character wide-rune identifier occupies exactly 4 visual columns. -/
theorem C9_unicode_width_table :
    (∀ s : String, (calculateCharPositions s).length = s.data.length ∧
      ∀ i, i < s.data.length →
        (calculateCharPositions s).get? i =
          some ⟨byteSum (s.data.take i), i, widthSum (s.data.take i)⟩) ∧
    (∀ c, charWidth c = if isWideRune c then 2 else 1) ∧
    (∀ s : String, visualWidth s = widthSum s.data) ∧
    (∀ c₁ c₂ : Char, isWideRune c₁ = true → isWideRune c₂ = true →
      visualWidth (String.mk [c₁, c₂]) = 4) := by
  refine ⟨?_, fun c => rfl, ?_, ?_⟩
  · intro s
    constructor
    · exact calcCharPosAux_length s.data 0 0 0
    · intro i h
      simpa using calcCharPosAux_get? s.data 0 0 0 i h
  · intro s
    simpa using visualWidth_foldl s.data 0
  · intro c₁ c₂ h₁ h₂
    unfold visualWidth
    rw [show (String.mk [c₁, c₂]).data = [c₁, c₂] from rfl, visualWidth_foldl]
    simp [widthSum, charWidth, h₁, h₂]

/-- Witness for C9 at a concrete wide-rune string: the identifier made of
the two Han runes in "日本" occupies 4 visual columns, and its position
table entry 1 sits at byte offset 3 and visual column 2. -/
theorem C9_witness :
    visualWidth (String.mk ['日', '本']) = 4 ∧
    (calculateCharPositions "日本").get? 1 = some ⟨3, 1, 2⟩ := by
  constructor
  · exact C9_unicode_width_table.2.2.2 '日' '本' (by decide) (by decide)
  · have h := (C9_unicode_width_table.1 "日本").2 1 (by decide)
    rw [h]; decide

/-- Two's-complement wrap-around of a 64-bit Go `int`. -/
def wrap64 (n : Int) : Int :=
  (n + 2 ^ 63) % 2 ^ 64 - 2 ^ 63

/-- The loop of `formatter.simpleHash`: Go's `for i, char := range s`
yields each rune together with its BYTE offset `i`, so the running index
advances by the rune's UTF-8 size. -/
def simpleHashAux : List Char → Nat → Int → Int
  | [], _, h => h
  | c :: cs, i, h => simpleHashAux cs (i + c.utf8Size) (wrap64 (h * 31 + c.toNat + i))

/-- `formatter.simpleHash`: the wrapped fold followed by Go's
`if hash < 0 { hash = -hash }` (negation also wraps). -/
def simpleHash (s : String) : Int :=
  let hash := simpleHashAux s.data 0 0
  if hash < 0 then wrap64 (-hash) else hash

/-- The fold the specification describes, with the index advancing by 1
per character (character index, not byte offset). -/
def claimHashAux : List Char → Nat → Int → Int
  | [], _, h => h
  | c :: cs, i, h => claimHashAux cs (i + 1) (wrap64 (h * 31 + c.toNat + i))

/-- `formatter.ColorConfig`, reduced to the fields `assignPipeColor`
reads; palette entries are abstract color identifiers. -/
structure ColorConfig where
  ColorsEnabled : Bool
  PipeColorsEnabled : Bool
  PipeColorPalette : List Nat
deriving DecidableEq

/-- `formatter.createPipeColorPalette`: the fixed palette of 8 distinct
colors (cyan, magenta, bright green, bright yellow, bright blue, bright
magenta, bright cyan, white), numbered 0..7. -/
def createPipeColorPalette : List Nat :=
  [0, 1, 2, 3, 4, 5, 6, 7]

/-- `formatter.assignPipeColor`: `none` models the fall-back to the
default pipe color; otherwise the palette entry at
`simpleHash(expression) % len(palette)` (Go `%` is truncated division
remainder, `Int.tmod`). -/
def assignPipeColor (cfg : ColorConfig) (expression : String) : Option Nat :=
  if !cfg.ColorsEnabled || !cfg.PipeColorsEnabled then none
  else if cfg.PipeColorPalette.length == 0 then none
  else
    let hash := simpleHash expression
    let colorIndex := hash.tmod (cfg.PipeColorPalette.length : Int)
    cfg.PipeColorPalette.get? colorIndex.toNat

theorem wrap64_bounds (x : Int) : -(2 ^ 63) ≤ wrap64 x ∧ wrap64 x < 2 ^ 63 := by
  unfold wrap64
  have hpos : (0 : Int) < 2 ^ 64 := by norm_num
  have h1 : (0 : Int) ≤ (x + 2 ^ 63) % 2 ^ 64 := Int.emod_nonneg _ (by norm_num)
  have h2 : (x + 2 ^ 63) % 2 ^ 64 < 2 ^ 64 := Int.emod_lt_of_pos _ hpos
  have e1 : (2 : Int) ^ 64 = 18446744073709551616 := by norm_num
  have e2 : (2 : Int) ^ 63 = 9223372036854775808 := by norm_num
  rw [e1, e2] at *
  omega

theorem wrap64_eq_self {x : Int} (h1 : -(2 ^ 63) ≤ x) (h2 : x < 2 ^ 63) :
    wrap64 x = x := by
  unfold wrap64
  have e1 : (2 : Int) ^ 64 = 18446744073709551616 := by norm_num
  have e2 : (2 : Int) ^ 63 = 9223372036854775808 := by norm_num
  have h3 : (x + 2 ^ 63) % 2 ^ 64 = x + 2 ^ 63 := by
    apply Int.emod_eq_of_lt
    · rw [e2] at *; omega
    · rw [e1, e2] at *; omega
  omega

theorem simpleHashAux_bounds :
    ∀ (cs : List Char) (i : Nat) (h : Int),
      -(2 ^ 63) ≤ h → h < 2 ^ 63 →
      -(2 ^ 63) ≤ simpleHashAux cs i h ∧ simpleHashAux cs i h < 2 ^ 63 := by
  intro cs
  induction cs with
  | nil => intro i h h1 h2; exact ⟨h1, h2⟩
  | cons c cs ih =>
    intro i h _ _
    exact ih _ _ (wrap64_bounds _).1 (wrap64_bounds _).2

theorem claimHashAux_eq_of_ascii :
    ∀ (cs : List Char) (i : Nat) (h : Int),
      (∀ c ∈ cs, c.utf8Size = 1) →
      claimHashAux cs i h = simpleHashAux cs i h := by
  intro cs
  induction cs with
  | nil => intro i h _; rfl
  | cons c cs ih =>
    intro i h hall
    have hc : c.utf8Size = 1 := hall c (by simp)
    simp only [claimHashAux, simpleHashAux, hc]
    exact ih _ _ (fun d hd => hall d (by simp [hd]))

theorem createPipeColorPalette_get? :
    ∀ i, i < 8 → createPipeColorPalette.get? i = some i := by
  decide

theorem paletteLiteral_getElem? :
    ∀ i, i < 8 → ([0, 1, 2, 3, 4, 5, 6, 7] : List Nat)[i]? = some i := by
  decide

/-- C7 (amended): the assigned pipe color is the palette entry at index
`|hash| mod 8`, where `hash` is the 64-bit-wrapped fold
`hash = hash*31 + codepoint + i` over the snippet's characters with `i`
the character's BYTE OFFSET (not its character index); the color is a
pure function of the snippet text, so two independently constructed
configurations with the standard palette agree; and on all-ASCII snippets
the byte-offset fold and the character-index fold of the claim
coincide. -/
theorem C7_color_assignment :
    ∀ (cfg cfg' : ColorConfig) (s : String),
      cfg.ColorsEnabled = true → cfg.PipeColorsEnabled = true →
      cfg.PipeColorPalette = createPipeColorPalette →
      cfg'.ColorsEnabled = true → cfg'.PipeColorsEnabled = true →
      cfg'.PipeColorPalette = createPipeColorPalette →
      assignPipeColor cfg s = some ((simpleHashAux s.data 0 0).natAbs % 8) ∧
      assignPipeColor cfg' s = assignPipeColor cfg s ∧
      ((∀ c ∈ s.data, c.utf8Size = 1) →
        claimHashAux s.data 0 0 = simpleHashAux s.data 0 0) := by
  have key : ∀ (cfg : ColorConfig) (s : String),
      cfg.ColorsEnabled = true → cfg.PipeColorsEnabled = true →
      cfg.PipeColorPalette = createPipeColorPalette →
      assignPipeColor cfg s = some ((simpleHashAux s.data 0 0).natAbs % 8) := by
    intro cfg s hc1 hc2 hpal
    have hb := simpleHashAux_bounds s.data 0 0 (by norm_num) (by norm_num)
    simp only [assignPipeColor, hc1, hc2, hpal]
    norm_num [createPipeColorPalette]
    by_cases hneg : simpleHashAux s.data 0 0 < 0
    · by_cases hmin : simpleHashAux s.data 0 0 = -(2 ^ 63)
      · have hs : simpleHash s = wrap64 (-(simpleHashAux s.data 0 0)) := by
          simp [simpleHash, hneg]
        rw [hs, hmin]
        norm_num
        decide
      · have hs : simpleHash s = -(simpleHashAux s.data 0 0) := by
          have := wrap64_eq_self (x := -(simpleHashAux s.data 0 0))
            (by omega) (by omega)
          simp [simpleHash, hneg, this]
        obtain ⟨n, hn⟩ := Int.eq_ofNat_of_zero_le
          (a := -(simpleHashAux s.data 0 0)) (by omega)
        have habs : (simpleHashAux s.data 0 0).natAbs = n := by
          have : simpleHashAux s.data 0 0 = -(n : Int) := by omega
          simp [this]
        rw [hs, hn, habs]
        have ht : (((n : Nat) : Int).tmod 8).toNat = n % 8 := rfl
        rw [ht]
        exact paletteLiteral_getElem? (n % 8) (Nat.mod_lt _ (by norm_num))
    · have hs : simpleHash s = simpleHashAux s.data 0 0 := by
        simp [simpleHash, hneg]
      obtain ⟨n, hn⟩ := Int.eq_ofNat_of_zero_le
        (a := simpleHashAux s.data 0 0) (by omega)
      rw [hs, hn]
      have ht : (((n : Nat) : Int).tmod 8).toNat = n % 8 := rfl
      have ha : ((n : Nat) : Int).natAbs = n := rfl
      rw [ht, ha]
      exact paletteLiteral_getElem? (n % 8) (Nat.mod_lt _ (by norm_num))
  intro cfg cfg' s hc1 hc2 hpal hc1' hc2' hpal'
  refine ⟨key cfg s hc1 hc2 hpal, ?_, fun h => claimHashAux_eq_of_ascii s.data 0 0 h⟩
  rw [key cfg s hc1 hc2 hpal, key cfg' s hc1' hc2' hpal']

/-- Counterexample for C7 as stated: on the snippet made of the Han rune
with code point 0x65E5 followed by "x", the palette index the code
computes (byte offsets 0 and 3 feed the fold, giving index 6) differs
from the index obtained with character indices 0 and 1 as the claim's
formula reads (index 4). -/
theorem C7_counterexample :
    assignPipeColor ⟨true, true, createPipeColorPalette⟩ (String.mk ['日', 'x']) ≠
      some ((claimHashAux (String.mk ['日', 'x']).data 0 0).natAbs % 8) := by
  decide

/-- Witness for C7's amended theorem at the snippet "user.Age" with two
independently constructed standard configurations. -/
theorem C7_witness :
    assignPipeColor ⟨true, true, createPipeColorPalette⟩ "user.Age" =
      some ((simpleHashAux "user.Age".data 0 0).natAbs % 8) ∧
    assignPipeColor ⟨true, true, createPipeColorPalette⟩ "user.Age" =
      assignPipeColor ⟨true, true, createPipeColorPalette⟩ "user.Age" ∧
    claimHashAux "user.Age".data 0 0 = simpleHashAux "user.Age".data 0 0 := by
  have h := C7_color_assignment ⟨true, true, createPipeColorPalette⟩
    ⟨true, true, createPipeColorPalette⟩ "user.Age" rfl rfl rfl rfl rfl rfl
  exact ⟨h.1, h.2.1, h.2.2 (by decide)⟩

/-- `formatter.ValuePosition` (fields in source order; integer fields are
non-negative at every producer and are modelled as `Nat`, except
`Priority`, kept as `Int` so that arbitrary inputs are expressible). -/
structure ValuePosition where
  Expression : String
  Value : String
  StartPos : Nat
  EndPos : Nat
  VisualPos : Nat
  VisualEnd : Nat
  Depth : Nat
  Priority : Int
  VisualLayer : Int
deriving DecidableEq

/-- `formatter.VisualNode`.  Note the Go code appends a node to its layer
BEFORE writing `nodes[i].VisualLayer`, so the copies stored in the layers
keep `VisualLayer = -1`; nothing ever reads the field, and the model keeps
that behavior. -/
structure VisualNode where
  Position : ValuePosition
  EvaluationDepth : Nat
  VisualLayer : Int
  PipePosition : Nat
  ConflictsWith : List Nat
deriving DecidableEq

/-- `formatter.LayerAssignment`.  `PipePositions` is Go's
`map[int]bool` used purely as a set: only membership matters. -/
structure LayerAssignment where
  MaxLayer : Nat
  Layers : List (List VisualNode)
  PipePositions : List Nat
deriving DecidableEq

/-- `formatter.rangesOverlap` on half-open ranges. -/
def rangesOverlap (start1 end1 start2 end2 : Nat) : Bool :=
  !(end1 ≤ start2 || end2 ≤ start1)

/-- `formatter.getValueRange`: the display range of a node,
`[PipePosition, PipePosition + visualWidth(Value))`. -/
def getValueRange (node : VisualNode) : Nat × Nat :=
  (node.PipePosition, node.PipePosition + visualWidth node.Position.Value)

/-- `formatter.canPlaceInLayer`: no existing entry's range overlaps. -/
def canPlaceInLayer (node : VisualNode) (layer : List VisualNode) : Bool :=
  layer.all (fun existing =>
    !(rangesOverlap (getValueRange node).1 (getValueRange node).2
      (getValueRange existing).1 (getValueRange existing).2))

/-- The inner placement loop of `assignVisualLayers`: scan the existing
layers in creation order and append the node to the first that accepts
it; `none` when no existing layer does. -/
def tryPlace (node : VisualNode) : List (List VisualNode) → Option (List (List VisualNode))
  | [] => none
  | l :: ls =>
    if canPlaceInLayer node l then some ((l ++ [node]) :: ls)
    else (tryPlace node ls).map (fun ls2 => l :: ls2)

/-- One iteration of `assignVisualLayers` over a sorted node: place into
the first fitting layer, or open a new layer at the end (Go then sets
`MaxLayer` to the new layer's index, `len(Layers) - 1`). -/
def assignFold (a : LayerAssignment) (node : VisualNode) : LayerAssignment :=
  match tryPlace node a.Layers with
  | some layers => { a with Layers := layers }
  | none =>
    { MaxLayer := a.Layers.length, Layers := a.Layers ++ [[node]],
      PipePositions := a.PipePositions }

/-- The sort order of `assignVisualLayers`: priority descending, ties by
pipe position ascending (Go uses an unstable `sort.Slice`; this is one
order compliant with its comparator, and every theorem below about the
result layers holds for any compliant order). -/
def nodeBefore (a b : VisualNode) : Prop :=
  b.Position.Priority < a.Position.Priority ∨
    (a.Position.Priority = b.Position.Priority ∧ a.PipePosition ≤ b.PipePosition)

instance : DecidableRel nodeBefore := fun a b => by
  unfold nodeBefore; infer_instance

instance : IsTotal VisualNode nodeBefore where
  total a b := by
    unfold nodeBefore
    rcases lt_trichotomy a.Position.Priority b.Position.Priority with h | h | h
    · exact Or.inr (Or.inl h)
    · rcases Nat.le_total a.PipePosition b.PipePosition with h2 | h2
      · exact Or.inl (Or.inr ⟨h, h2⟩)
      · exact Or.inr (Or.inr ⟨h.symm, h2⟩)
    · exact Or.inl (Or.inl h)

instance : IsTrans VisualNode nodeBefore where
  trans a b c hab hbc := by
    unfold nodeBefore at *
    rcases hab with h1 | ⟨h1, h1'⟩ <;> rcases hbc with h2 | ⟨h2, h2'⟩
    · exact Or.inl (h2.trans h1)
    · exact Or.inl (by omega)
    · exact Or.inl (by omega)
    · exact Or.inr ⟨h1.trans h2, h1'.trans h2'⟩

/-- The node-conversion loop of `assignVisualLayers`. -/
def toVisualNode (pos : ValuePosition) : VisualNode :=
  { Position := pos, EvaluationDepth := pos.Depth, VisualLayer := -1,
    PipePosition := pos.VisualPos, ConflictsWith := [] }

/-- `formatter.assignVisualLayers`: convert positions to visual nodes
(recording every `VisualPos` in the pipe-position set), sort by priority
descending with ties by pipe position ascending, then place first-fit. -/
def assignVisualLayers (positions : List ValuePosition) : LayerAssignment :=
  let nodes := positions.map toVisualNode
  let sorted := List.insertionSort nodeBefore nodes
  sorted.foldl assignFold
    { MaxLayer := 0, Layers := [], PipePositions := positions.map (fun p => p.VisualPos) }

/-- Two nodes' display ranges do not overlap. -/
def noOverlap (a b : VisualNode) : Prop :=
  rangesOverlap (getValueRange a).1 (getValueRange a).2
    (getValueRange b).1 (getValueRange b).2 = false

theorem noOverlap_symm {a b : VisualNode} (h : noOverlap a b) : noOverlap b a := by
  unfold noOverlap rangesOverlap at *
  simp only [Bool.not_eq_false', Bool.or_eq_true, decide_eq_true_eq] at *
  omega

theorem canPlaceInLayer_noOverlap {node : VisualNode} {layer : List VisualNode}
    (h : canPlaceInLayer node layer = true) :
    ∀ e ∈ layer, noOverlap node e := by
  intro e he
  unfold canPlaceInLayer at h
  rw [List.all_eq_true] at h
  have := h e he
  simpa [noOverlap] using this

/-- Every layer of a layer list is internally overlap-free. -/
def goodLayers (layers : List (List VisualNode)) : Prop :=
  ∀ l ∈ layers, l.Pairwise noOverlap

theorem tryPlace_good {node : VisualNode} :
    ∀ {layers layers' : List (List VisualNode)},
      tryPlace node layers = some layers' → goodLayers layers → goodLayers layers' := by
  intro layers
  induction layers with
  | nil => intro layers' h; simp [tryPlace] at h
  | cons l ls ih =>
    intro layers' h hg
    unfold tryPlace at h
    by_cases hc : canPlaceInLayer node l
    · rw [if_pos hc] at h
      obtain rfl := Option.some_injective _ h
      intro l' hl'
      rcases List.mem_cons.mp hl' with rfl | hl'
      · rw [List.pairwise_append]
        refine ⟨hg l (by simp), List.pairwise_singleton _ _, ?_⟩
        intro a ha b hb
        rw [List.mem_singleton] at hb
        subst hb
        exact noOverlap_symm (canPlaceInLayer_noOverlap hc a ha)
      · exact hg l' (List.mem_cons_of_mem _ hl')
    · rw [if_neg hc] at h
      cases hrec : tryPlace node ls with
      | none => rw [hrec] at h; simp at h
      | some ls2 =>
        rw [hrec] at h
        simp only [Option.map_some'] at h
        obtain rfl := Option.some_injective _ h
        have hgood2 : goodLayers ls2 :=
          ih hrec (fun l' hl' => hg l' (List.mem_cons_of_mem _ hl'))
        intro l' hl'
        rcases List.mem_cons.mp hl' with rfl | hl'
        · exact hg l' (by simp)
        · exact hgood2 l' hl'

theorem assignFold_good {a : LayerAssignment} {node : VisualNode}
    (hg : goodLayers a.Layers) : goodLayers (assignFold a node).Layers := by
  unfold assignFold
  cases h : tryPlace node a.Layers with
  | some layers => exact tryPlace_good h hg
  | none =>
    intro l hl
    rcases List.mem_append.mp hl with hl | hl
    · exact hg l hl
    · rw [List.mem_singleton] at hl
      subst hl
      exact List.pairwise_singleton _ _

theorem foldl_assignFold_good :
    ∀ (ns : List VisualNode) (a : LayerAssignment),
      goodLayers a.Layers → goodLayers (ns.foldl assignFold a).Layers := by
  intro ns
  induction ns with
  | nil => intro a hg; exact hg
  | cons n ns ih => intro a hg; exact ih _ (assignFold_good hg)

/-- C3: the layer assigner processes the value positions sorted by
`Priority` descending with ties broken by pipe column (`VisualPos`)
ascending (the sorted list is ordered by `nodeBefore` and is a
permutation of the input nodes), placing each node into the first
existing layer that accepts it (`tryPlace`/`assignFold`), and in the
resulting assignment every layer is pairwise overlap-free on the
half-open ranges `[PipePosition, PipePosition + visualWidth Value)`. -/
theorem C3_layer_assignment_no_overlap :
    ∀ positions : List ValuePosition,
      List.Sorted nodeBefore
        (List.insertionSort nodeBefore (positions.map toVisualNode)) ∧
      List.Perm (List.insertionSort nodeBefore (positions.map toVisualNode))
        (positions.map toVisualNode) ∧
      ∀ layer ∈ (assignVisualLayers positions).Layers, layer.Pairwise noOverlap := by
  intro positions
  refine ⟨List.sorted_insertionSort nodeBefore _,
    List.perm_insertionSort nodeBefore _, ?_⟩
  unfold assignVisualLayers
  exact foldl_assignFold_good _ _ (by intro l hl; simp at hl)

/-- Witness for C3 on the two positions of the expression "x > 20"
(identifier value "10" at column 0, operator result "false" at
column 2): both land in one layer whose ranges [0,2) and [2,7) do not
overlap, and the sort puts the priority-20 identifier first. -/
theorem C3_witness :
    (∀ layer ∈ (assignVisualLayers
        [⟨"x", "10", 0, 1, 0, 1, 1, 20, 0⟩,
         ⟨">", "false", 2, 3, 2, 3, 1, 5, 0⟩]).Layers,
      layer.Pairwise noOverlap) ∧
    List.Sorted nodeBefore
      (List.insertionSort nodeBefore
        ([⟨"x", "10", 0, 1, 0, 1, 1, 20, 0⟩,
          ⟨">", "false", 2, 3, 2, 3, 1, 5, 0⟩].map toVisualNode)) := by
  refine ⟨(C3_layer_assignment_no_overlap _).2.2, (C3_layer_assignment_no_overlap _).1⟩

/-- The per-column condition of the pipe-line loop in
`buildPowerAssertTreeWithLayers`: a connector is drawn at column `c` of
layer `layerIdx` iff `c` is a recorded pipe position AND (some node of
this layer sits at `c`, or `layerIdx < MaxLayer` and some node of a
deeper layer sits at `c`). -/
def showPipeAt (a : LayerAssignment) (layerIdx c : Nat) : Bool :=
  decide (c ∈ a.PipePositions) &&
    ((a.Layers.getD layerIdx []).any (fun node => node.PipePosition == c) ||
      (decide (layerIdx < a.MaxLayer) &&
        (a.Layers.drop (layerIdx + 1)).any (fun layer =>
          layer.any (fun node => node.PipePosition == c))))

/-- The pipe line of one layer, before trailing-space trimming: the Go
code allocates `exprWidth + 100` spaces and writes a rune at every
qualifying in-bounds column, which is this character list. -/
def pipeLineFor (a : LayerAssignment) (width layerIdx : Nat) : List Char :=
  (List.range width).map (fun c => if showPipeAt a layerIdx c then '|' else ' ')

theorem tryPlace_length {node : VisualNode} :
    ∀ {ls ls' : List (List VisualNode)},
      tryPlace node ls = some ls' → ls'.length = ls.length := by
  intro ls
  induction ls with
  | nil => intro ls' h; simp [tryPlace] at h
  | cons l ls ih =>
    intro ls' h
    unfold tryPlace at h
    by_cases hc : canPlaceInLayer node l
    · rw [if_pos hc] at h
      obtain rfl := Option.some_injective _ h
      simp
    · rw [if_neg hc] at h
      cases hrec : tryPlace node ls with
      | none => rw [hrec] at h; simp at h
      | some ls2 =>
        rw [hrec] at h
        simp only [Option.map_some'] at h
        obtain rfl := Option.some_injective _ h
        simp [ih hrec]

/-- Invariant of the greedy fold: `MaxLayer` tracks the index of the last
layer (or is still 0 before any layer exists). -/
def maxLayerInv (a : LayerAssignment) : Prop :=
  a.Layers.length ≤ a.MaxLayer + 1 ∧
    (a.MaxLayer = 0 ∨ a.MaxLayer + 1 = a.Layers.length)

theorem assignFold_maxLayerInv {a : LayerAssignment} {node : VisualNode}
    (h : maxLayerInv a) : maxLayerInv (assignFold a node) := by
  unfold assignFold
  cases ht : tryPlace node a.Layers with
  | some layers =>
    have hl := tryPlace_length ht
    exact ⟨by simp [hl, h.1], by rcases h.2 with h2 | h2 <;> simp [hl, h2]⟩
  | none =>
    constructor
    · simp
    · right; simp

theorem foldl_assignFold_maxLayerInv :
    ∀ (ns : List VisualNode) (a : LayerAssignment),
      maxLayerInv a → maxLayerInv (ns.foldl assignFold a) := by
  intro ns
  induction ns with
  | nil => intro a h; exact h
  | cons n ns ih => intro a h; exact ih _ (assignFold_maxLayerInv h)

theorem assignVisualLayers_maxLayer {positions : List ValuePosition}
    (h : (assignVisualLayers positions).Layers ≠ []) :
    (assignVisualLayers positions).MaxLayer + 1 =
      (assignVisualLayers positions).Layers.length := by
  have hI : maxLayerInv (assignVisualLayers positions) := by
    unfold assignVisualLayers
    exact foldl_assignFold_maxLayerInv _ _ ⟨by simp, Or.inl rfl⟩
  have hlen : 0 < (assignVisualLayers positions).Layers.length :=
    List.length_pos.mpr h
  rcases hI.2 with h2 | h2
  · have := hI.1
    omega
  · exact h2

theorem tryPlace_mem_src {node : VisualNode} :
    ∀ {ls ls' : List (List VisualNode)},
      tryPlace node ls = some ls' →
      ∀ l' ∈ ls', ∀ x ∈ l', (∃ l ∈ ls, x ∈ l) ∨ x = node := by
  intro ls
  induction ls with
  | nil => intro ls' h; simp [tryPlace] at h
  | cons l ls ih =>
    intro ls' h l' hl' x hx
    unfold tryPlace at h
    by_cases hc : canPlaceInLayer node l
    · rw [if_pos hc] at h
      obtain rfl := Option.some_injective _ h
      rcases List.mem_cons.mp hl' with rfl | hl'
      · rcases List.mem_append.mp hx with hx | hx
        · exact Or.inl ⟨l, by simp, hx⟩
        · rw [List.mem_singleton] at hx; exact Or.inr hx
      · exact Or.inl ⟨l', List.mem_cons_of_mem _ hl', hx⟩
    · rw [if_neg hc] at h
      cases hrec : tryPlace node ls with
      | none => rw [hrec] at h; simp at h
      | some ls2 =>
        rw [hrec] at h
        simp only [Option.map_some'] at h
        obtain rfl := Option.some_injective _ h
        rcases List.mem_cons.mp hl' with rfl | hl'
        · exact Or.inl ⟨l', by simp, hx⟩
        · rcases ih hrec l' hl' x hx with ⟨l0, hl0, hx0⟩ | hx0
          · exact Or.inl ⟨l0, List.mem_cons_of_mem _ hl0, hx0⟩
          · exact Or.inr hx0

theorem assignFold_mem_src {a : LayerAssignment} {node : VisualNode} :
    ∀ l' ∈ (assignFold a node).Layers, ∀ x ∈ l',
      (∃ l ∈ a.Layers, x ∈ l) ∨ x = node := by
  intro l' hl' x hx
  unfold assignFold at hl'
  cases ht : tryPlace node a.Layers with
  | some layers =>
    rw [ht] at hl'
    exact tryPlace_mem_src ht l' hl' x hx
  | none =>
    rw [ht] at hl'
    rcases List.mem_append.mp hl' with hl' | hl'
    · exact Or.inl ⟨l', hl', hx⟩
    · rw [List.mem_singleton] at hl'
      subst hl'
      rw [List.mem_singleton] at hx
      exact Or.inr hx

theorem foldl_assignFold_mem_src :
    ∀ (ns : List VisualNode) (a : LayerAssignment),
      ∀ l' ∈ (ns.foldl assignFold a).Layers, ∀ x ∈ l',
        (∃ l ∈ a.Layers, x ∈ l) ∨ x ∈ ns := by
  intro ns
  induction ns with
  | nil => intro a l' hl' x hx; exact Or.inl ⟨l', hl', hx⟩
  | cons n ns ih =>
    intro a l' hl' x hx
    rcases ih (assignFold a n) l' hl' x hx with ⟨l0, hl0, hx0⟩ | hx0
    · rcases assignFold_mem_src l0 hl0 x hx0 with ⟨l1, hl1, hx1⟩ | hx1
      · exact Or.inl ⟨l1, hl1, hx1⟩
      · exact Or.inr (by simp [hx1])
    · exact Or.inr (List.mem_cons_of_mem _ hx0)

/-- Every node stored in a layer of `assignVisualLayers positions` is the
visual node of one of the input positions. -/
theorem assignVisualLayers_mem_src {positions : List ValuePosition} :
    ∀ layer ∈ (assignVisualLayers positions).Layers, ∀ nd ∈ layer,
      nd ∈ positions.map toVisualNode := by
  intro layer hl nd hnd
  unfold assignVisualLayers at hl
  rcases foldl_assignFold_mem_src _ _ layer hl nd hnd with ⟨l0, hl0, _⟩ | hnd'
  · simp at hl0
  · exact (List.mem_insertionSort nodeBefore).mp hnd'

theorem pipeLineFor_get? (a : LayerAssignment) (width layerIdx c : Nat) :
    (pipeLineFor a width layerIdx).get? c =
      if c < width then some (if showPipeAt a layerIdx c then '|' else ' ')
      else none := by
  unfold pipeLineFor
  rw [List.get?_map]
  by_cases h : c < width
  · rw [List.get?_range h]
    simp [h]
  · rw [List.get?_eq_none.mpr (by simpa [Nat.not_lt] using h)]
    simp [h]


theorem assignFold_pipePositions (a : LayerAssignment) (node : VisualNode) :
    (assignFold a node).PipePositions = a.PipePositions := by
  unfold assignFold
  cases tryPlace node a.Layers <;> rfl

theorem foldl_assignFold_pipePositions :
    ∀ (ns : List VisualNode) (a : LayerAssignment),
      (ns.foldl assignFold a).PipePositions = a.PipePositions := by
  intro ns
  induction ns with
  | nil => intro a; rfl
  | cons n ns ih =>
    intro a
    rw [List.foldl_cons, ih, assignFold_pipePositions]

theorem assignVisualLayers_pipePositions (positions : List ValuePosition) :
    (assignVisualLayers positions).PipePositions =
      positions.map (fun p => p.VisualPos) := by
  unfold assignVisualLayers
  rw [foldl_assignFold_pipePositions]

/-- C4 (amended): for a layer assignment produced from a non-empty
position list all of whose columns lie inside the fixed pipe buffer
(`visualWidth expr + 100` characters wide — columns beyond the buffer are
silently dropped by the renderer), (1) if a node at some column is
assigned to layer `k` then the rendered pipe line of every layer `i ≤ k`
carries a connector at that column, and (2) a layer's pipe line shows a
connector at a column exactly when a node at that column sits in that
layer or in some deeper layer. -/
theorem C4_pipe_continuity :
    ∀ (positions : List ValuePosition) (expr : String),
      positions ≠ [] →
      (∀ p ∈ positions, p.VisualPos < visualWidth expr + 100) →
      (∀ k layer, (assignVisualLayers positions).Layers.get? k = some layer →
        ∀ nd ∈ layer, ∀ i, i ≤ k →
          (pipeLineFor (assignVisualLayers positions) (visualWidth expr + 100) i).get?
            nd.PipePosition = some '|') ∧
      (∀ i, i < (assignVisualLayers positions).Layers.length → ∀ c,
        ((pipeLineFor (assignVisualLayers positions) (visualWidth expr + 100) i).get? c
            = some '|' ↔
          ∃ layer ∈ (assignVisualLayers positions).Layers.drop i,
            ∃ nd ∈ layer, nd.PipePosition = c)) := by
  intro positions expr _hne hbound
  have hsrc := @assignVisualLayers_mem_src positions
  have hcol : ∀ layer ∈ (assignVisualLayers positions).Layers, ∀ nd ∈ layer,
      nd.PipePosition < visualWidth expr + 100 ∧
        nd.PipePosition ∈ (assignVisualLayers positions).PipePositions := by
    intro layer hl nd hnd
    obtain ⟨p, hp, hpe⟩ := List.mem_map.mp (hsrc layer hl nd hnd)
    have hppos : nd.PipePosition = p.VisualPos := by rw [← hpe]; rfl
    constructor
    · rw [hppos]; exact hbound p hp
    · rw [assignVisualLayers_pipePositions, hppos]
      exact List.mem_map.mpr ⟨p, hp, rfl⟩
  have hiff : ∀ i, i < (assignVisualLayers positions).Layers.length → ∀ c,
      ((pipeLineFor (assignVisualLayers positions) (visualWidth expr + 100) i).get? c
          = some '|' ↔
        ∃ layer ∈ (assignVisualLayers positions).Layers.drop i,
          ∃ nd ∈ layer, nd.PipePosition = c) := by
    intro i hi c
    rw [pipeLineFor_get?]
    constructor
    · intro h
      by_cases hc : c < visualWidth expr + 100
      · rw [if_pos hc] at h
        have hsp : showPipeAt (assignVisualLayers positions) i c = true := by
          by_contra hsp
          rw [Bool.not_eq_true] at hsp
          rw [hsp] at h
          simp at h
        unfold showPipeAt at hsp
        rw [Bool.and_eq_true] at hsp
        rcases hsp with ⟨_hmem, hrest⟩
        rw [Bool.or_eq_true] at hrest
        rcases hrest with hthis | hdeep
        · have hgi : (assignVisualLayers positions).Layers.get? i =
              some ((assignVisualLayers positions).Layers.get ⟨i, hi⟩) :=
            List.get?_eq_get hi
          have hgd : (assignVisualLayers positions).Layers.getD i [] =
              (assignVisualLayers positions).Layers.get ⟨i, hi⟩ := by
            rw [List.getD_eq_get?, hgi]; rfl
          rw [hgd, List.any_eq_true] at hthis
          obtain ⟨nd, hnd, hndc⟩ := hthis
          refine ⟨(assignVisualLayers positions).Layers.get ⟨i, hi⟩, ?_, nd, hnd,
            by simpa using hndc⟩
          apply List.get?_mem (n := 0)
          rw [List.get?_drop]
          simpa using hgi
        · rw [Bool.and_eq_true] at hdeep
          obtain ⟨_hml, hany⟩ := hdeep
          rw [List.any_eq_true] at hany
          obtain ⟨layer, hlayer, hlany⟩ := hany
          rw [List.any_eq_true] at hlany
          obtain ⟨nd, hnd, hndc⟩ := hlany
          refine ⟨layer, ?_, nd, hnd, by simpa using hndc⟩
          have hmem1 : layer ∈ ((assignVisualLayers positions).Layers.drop i).drop 1 := by
            rw [List.drop_drop]
            exact hlayer
          exact List.drop_subset 1 _ hmem1
      · rw [if_neg hc] at h
        exact absurd h (by simp)
    · rintro ⟨layer, hlayer, nd, hnd, rfl⟩
      have hlmem : layer ∈ (assignVisualLayers positions).Layers :=
        List.drop_subset i _ hlayer
      have hcf := hcol layer hlmem nd hnd
      rw [if_pos hcf.1]
      have hsp : showPipeAt (assignVisualLayers positions) i nd.PipePosition = true := by
        unfold showPipeAt
        rw [Bool.and_eq_true]
        refine ⟨decide_eq_true hcf.2, ?_⟩
        rw [Bool.or_eq_true]
        obtain ⟨j, hj⟩ := List.mem_iff_get?.mp hlayer
        rw [List.get?_drop] at hj
        cases j with
        | zero =>
          left
          have hgd : (assignVisualLayers positions).Layers.getD i [] = layer := by
            rw [List.getD_eq_get?]
            rw [show i + 0 = i from rfl] at hj
            rw [hj]
            rfl
          rw [hgd, List.any_eq_true]
          exact ⟨nd, hnd, by simp⟩
        | succ j' =>
          right
          rw [Bool.and_eq_true]
          obtain ⟨hjlen, _⟩ := List.get?_eq_some.mp hj
          constructor
          · have hnonempty : (assignVisualLayers positions).Layers ≠ [] := by
              intro he
              rw [he] at hjlen
              simp at hjlen
            have hML := assignVisualLayers_maxLayer hnonempty
            simp only [decide_eq_true_eq]
            omega
          · rw [List.any_eq_true]
            refine ⟨layer, ?_, ?_⟩
            · apply List.get?_mem (n := j')
              rw [List.get?_drop]
              rw [show i + 1 + j' = i + (j' + 1) from by omega]
              exact hj
            · rw [List.any_eq_true]
              exact ⟨nd, hnd, by simp⟩
      rw [hsp]
      rfl
  refine ⟨?_, hiff⟩
  intro k layer hk nd hnd i hik
  obtain ⟨hklen, _⟩ := List.get?_eq_some.mp hk
  have hilen : i < (assignVisualLayers positions).Layers.length :=
    lt_of_le_of_lt hik hklen
  apply (hiff i hilen nd.PipePosition).mpr
  refine ⟨layer, ?_, nd, hnd, rfl⟩
  apply List.get?_mem (n := k - i)
  rw [List.get?_drop]
  rw [show i + (k - i) = k from by omega]
  exact hk

/-- Counterexample for C4 as stated: from the non-empty position list
holding one node at visual column 200 (with the empty expression, so the
pipe buffer is 100 columns wide), the node IS assigned to layer 0, yet
layer 0's rendered pipe line has no character at column 200 at all — the
claim's connector is silently dropped because the column exceeds the
fixed `exprWidth + 100` buffer. -/
theorem C4_counterexample :
    (assignVisualLayers [⟨"x", "v", 0, 1, 200, 201, 0, 20, 0⟩]).Layers.get? 0 =
        some [toVisualNode ⟨"x", "v", 0, 1, 200, 201, 0, 20, 0⟩] ∧
    (pipeLineFor (assignVisualLayers [⟨"x", "v", 0, 1, 200, 201, 0, 20, 0⟩])
        (visualWidth "" + 100) 0).get? 200 = none := by
  decide

/-- Witness for C4's amended theorem on the two positions of
"x > 20": the operator node at column 2 sits in layer 0 and layer 0's
pipe line shows a connector at column 2. -/
theorem C4_witness :
    (pipeLineFor
        (assignVisualLayers
          [⟨"x", "10", 0, 1, 0, 1, 1, 20, 0⟩, ⟨">", "false", 2, 3, 2, 3, 1, 5, 0⟩])
        (visualWidth "x > 20" + 100) 0).get? 2 = some '|' := by
  have h := (C4_pipe_continuity
    [⟨"x", "10", 0, 1, 0, 1, 1, 20, 0⟩, ⟨">", "false", 2, 3, 2, 3, 1, 5, 0⟩]
    "x > 20" (by decide) (by decide)).1
  exact h 0
    [toVisualNode ⟨"x", "10", 0, 1, 0, 1, 1, 20, 0⟩,
     toVisualNode ⟨">", "false", 2, 3, 2, 3, 1, 5, 0⟩]
    (by decide) (toVisualNode ⟨">", "false", 2, 3, 2, 3, 1, 5, 0⟩) (by decide)
    0 (Nat.le_refl 0)

/-- Byte-list prefix test. -/
def isBytePrefix : List UInt8 → List UInt8 → Bool
  | [], _ => true
  | _ :: _, [] => false
  | a :: as, b :: bs => a == b && isBytePrefix as bs

/-- First byte index at which `needle` occurs in the remaining haystack
(`strings.Index` kernel; the empty needle matches at 0). -/
def listIndexOf (needle : List UInt8) : List UInt8 → Option Nat
  | [] => if isBytePrefix needle [] then some 0 else none
  | a :: t =>
    if isBytePrefix needle (a :: t) then some 0
    else
      match listIndexOf needle t with
      | some i => some (i + 1)
      | none => none

/-- `strings.Index(s, sub)`: byte index of the first occurrence, -1 when
absent. -/
def goIndex (s sub : String) : Int :=
  match listIndexOf (strBytes sub) (strBytes s) with
  | some i => (i : Int)
  | none => -1

/-- `strings.Contains(s, sub)`. -/
def goContains (s sub : String) : Bool :=
  goIndex s sub != -1

/-- `formatter.findActualPosition`: whole-expression first-occurrence
search for the element; for 1-byte elements, and 2-byte elements
containing "=", a second search with surrounding spaces; -1 when both
fail.  Go's `len` is the byte length. -/
def findActualPosition (element expr : String) : Int :=
  if goIndex expr element != -1 then goIndex expr element
  else
    if element.utf8ByteSize == 1 ||
        (element.utf8ByteSize == 2 && goContains element "=") then
      let spaced := " " ++ element ++ " "
      if goIndex expr spaced != -1 then goIndex expr spaced + 1
      else -1
    else -1

/-- `formatter.correctVisualPositions`: re-locate every position by a
whole-expression search; when the search succeeds the found byte index
overrides `VisualPos` (and `VisualEnd` becomes it plus the element's
visual width), when it fails the position is left exactly as it was —
it stays in the list. -/
def correctVisualPositions (positions : List ValuePosition) (expr : String) :
    List ValuePosition :=
  positions.map (fun pos =>
    let actualPos := findActualPosition pos.Expression expr
    if actualPos ≥ 0 then
      { pos with VisualPos := actualPos.toNat,
                 VisualEnd := actualPos.toNat + visualWidth pos.Expression }
    else pos)

/-- `formatter.findOperatorInNode`: for a `BinaryExpr` (with `leftEnd` the
byte end of the left operand and `rightStart` the byte start of the right
operand, both non-negative so the Go guard `leftEnd >= 0` is inert in the
`Nat` model), search the byte slice `expr[leftEnd:rightStart]` for the
operator; found → `leftEnd + index`, not found or out-of-bounds guard →
`leftEnd`; non-binary nodes → 0. -/
def findOperatorInNode (isBinary : Bool) (leftEnd rightStart : Nat)
    (operator expr : String) : Nat :=
  if isBinary then
    if rightStart ≤ expr.utf8ByteSize then
      let between := ((strBytes expr).drop leftEnd).take (rightStart - leftEnd)
      match listIndexOf (strBytes operator) between with
      | some opIndex => leftEnd + opIndex
      | none => leftEnd
    else leftEnd
  else 0

/-- Counterexample for C8 as stated: a position whose text ("zz") occurs
nowhere in the expression ("ab") is NOT dropped from the position list —
`correctVisualPositions` returns it unchanged, previous (possibly wrong)
column included; and when the operator is not found between the
operands, `findOperatorInNode` does not search the whole expression or
drop the node: it falls back to the left operand's end (here ">" is
absent from "x y" between bytes 1 and 2, and the result is 1). -/
theorem C8_counterexample :
    correctVisualPositions [⟨"zz", "v", 0, 2, 7, 9, 0, 20, 0⟩] "ab" =
      [⟨"zz", "v", 0, 2, 7, 9, 0, 20, 0⟩] ∧
    findOperatorInNode true 1 2 ">" "x y" = 1 := by
  decide

/-- C8 (amended): in the fallback positioning strategy, a binary node's
operator is located by substring search between the byte end of the left
operand and the byte start of the right operand, defaulting to the left
operand's end when not found there; afterwards `correctVisualPositions`
re-locates every node by a whole-expression first-occurrence search that
overrides the column when it succeeds; when that search fails the node
keeps its previously computed column and remains in the position list
(the list's length never changes) rather than being dropped. -/
theorem C8_fallback_positioning :
    (∀ leftEnd rightStart operator expr, rightStart ≤ expr.utf8ByteSize →
      (∀ i, listIndexOf (strBytes operator)
          (((strBytes expr).drop leftEnd).take (rightStart - leftEnd)) = some i →
        findOperatorInNode true leftEnd rightStart operator expr = leftEnd + i) ∧
      (listIndexOf (strBytes operator)
          (((strBytes expr).drop leftEnd).take (rightStart - leftEnd)) = none →
        findOperatorInNode true leftEnd rightStart operator expr = leftEnd)) ∧
    (∀ positions expr,
      (correctVisualPositions positions expr).length = positions.length) ∧
    (∀ positions expr i pos, positions.get? i = some pos →
      (correctVisualPositions positions expr).get? i = some
        (if findActualPosition pos.Expression expr ≥ 0 then
          { pos with
              VisualPos := (findActualPosition pos.Expression expr).toNat,
              VisualEnd := (findActualPosition pos.Expression expr).toNat +
                visualWidth pos.Expression }
         else pos)) := by
  refine ⟨?_, ?_, ?_⟩
  · intro leftEnd rightStart operator expr hb
    constructor
    · intro i hfound
      simp [findOperatorInNode, hb, hfound]
    · intro hnone
      simp [findOperatorInNode, hb, hnone]
  · intro positions expr
    simp [correctVisualPositions]
  · intro positions expr i pos hget
    unfold correctVisualPositions
    rw [List.get?_map, hget]
    rfl

/-- Witness for C8 at concrete inputs: in "x > y" the operator ">" is
found between the operands (bytes 1..3) at offset 1, so its column is
1 + 1 = 2; and a found element's position is overridden by the
whole-expression search. -/
theorem C8_witness :
    findOperatorInNode true 1 3 ">" "x > y" = 2 ∧
    (correctVisualPositions [⟨">", "false", 0, 1, 9, 10, 0, 5, 0⟩] "x > y").get? 0 =
      some ⟨">", "false", 0, 1, 2, 3, 0, 5, 0⟩ := by
  constructor
  · exact ((C8_fallback_positioning.1 1 3 ">" "x > y" (by decide)).1 1 (by decide))
  · have h := C8_fallback_positioning.2.2 [⟨">", "false", 0, 1, 9, 10, 0, 5, 0⟩]
      "x > y" 0 ⟨">", "false", 0, 1, 9, 10, 0, 5, 0⟩ (by decide)
    rw [h]
    decide

/-- `formatter.byteToVisualPos`: scan the character table from the end
for the first entry at or before the byte position and add the byte
offset within that character; 0 for an empty table. -/
def byteToVisualPos (bytePos : Nat) (charPositions : List CharPosition) : Nat :=
  match charPositions.reverse.find? (fun cp => cp.BytePos ≤ bytePos) with
  | some cp => cp.VisualPos + (bytePos - cp.BytePos)
  | none => 0

/-- Prefix of a string spanning at most `n` UTF-8 bytes (models Go's byte
slicing `s[:n]` at the value-formatting call sites, whose arguments cut
at rune boundaries). -/
def strTakePrefixBytes (s : String) (n : Nat) : String :=
  let rec go : List Char → Nat → List Char
    | [], _ => []
    | c :: cs, budget =>
      if c.utf8Size ≤ budget then c :: go cs (budget - c.utf8Size) else []
  String.mk (go s.data n)

/-- Go `%q` on the strings reaching `formatValueCompact` (escaping of
special characters is not modelled; no claim formats such a string). -/
def goQuote (s : String) : String :=
  "\"" ++ s ++ "\""

/-- Go `%v` of an `[]int` value: space-separated elements in brackets. -/
def goFmtIntSliceV (l : List Int) : String :=
  "[" ++ String.intercalate " " (l.map toString) ++ "]"

/-- `formatter.formatSliceCompact`. -/
def formatSliceCompact (slice : List Int) : String :=
  match slice with
  | [] => "[]"
  | a :: b :: _ :: _ :: _ => "[" ++ toString a ++ "," ++ toString b ++ ",...]"
  | l => goFmtIntSliceV l

/-- `formatter.formatStructCompact` on the modelled universe (the struct
branch; the only values that reach it are structs, whose int fields
format as decimals; literal braces are the field-list delimiters). -/
def formatStructCompact (fields : List (String × Int)) : String :=
  let shown := (fields.take 2).map (fun f => f.1 ++ ":" ++ toString f.2)
  let withEllipsis := if fields.length > 2 then shown ++ ["..."] else shown
  "\x7b" ++ String.intercalate "," withEllipsis ++ "\x7d"

/-- `formatter.formatValueCompact` on the modelled universe; `none` is a
`nil` interface.  Go renders floats with `%v` (shortest decimal form),
modelled here by the rational's `toString`; no claim depends on float
text. -/
def formatValueCompact : Option GoValue → String
  | none => "nil"
  | some v =>
    match v with
    | .vString s =>
      if s.utf8ByteSize > 10 then goQuote (strTakePrefixBytes s 10) ++ "..."
      else goQuote s
    | .vIntSlice l => formatSliceCompact l
    | .vBool b => toString b
    | .vInt n | .vInt8 n | .vInt16 n | .vInt32 n | .vInt64 n => toString n
    | .vUint n | .vUint8 n | .vUint16 n | .vUint32 n | .vUint64 n => toString n
    | .vFloat32 q | .vFloat64 q => toString q
    | .vStruct fields =>
      let s := formatStructCompact fields
      if s.utf8ByteSize > 15 then strTakePrefixBytes s 15 ++ "..." else s

/-- Deduplicating append of the collectors: add the position unless its
key was already seen. -/
def addSeen (st : List String × List ValuePosition) (key : String)
    (p : ValuePosition) : List String × List ValuePosition :=
  if st.1.contains key then st else (key :: st.1, st.2 ++ [p])

mutual

/-- `formatter.collectPositionsDepth` (the fallback extractor): emit a
position for identifiers (priority 20), literals (priority 15),
comparison operators (priority 5, depth+1) and logical operators
(priority 3, depth+1) located by whole-expression byte search, skipping
nodes whose value is nil or whose text is absent from the expression,
then recurse into the children at depth+1.  The `seen`/`positions` pair
is the explicit accumulator state. -/
def collectPositionsDepth (expr : String) (cps : List CharPosition) :
    EvaluationTree → Nat → List String × List ValuePosition →
      List String × List ValuePosition
  | .mk _id typ operator left right value result text children, depth, st =>
    let st0 :=
      if typ == "identifier" then
        if value.isSome && text != "" then
          match listIndexOf (strBytes text) (strBytes expr) with
          | some pos =>
            let visualPos0 := byteToVisualPos pos cps
            let visualPos := if visualPos0 == 0 && pos != 0 then pos else visualPos0
            addSeen st (toString visualPos ++ "-" ++ text)
              ⟨text, formatValueCompact value, pos, pos + text.utf8ByteSize,
                visualPos, visualPos + visualWidth text, depth, 20, 0⟩
          | none => st
        else st
      else if typ == "literal" then
        if value.isSome && text != "" then
          match listIndexOf (strBytes text) (strBytes expr) with
          | some pos =>
            let visualPos0 := byteToVisualPos pos cps
            let visualPos := if visualPos0 == 0 && pos != 0 then pos else visualPos0
            addSeen st (toString visualPos ++ "-lit-" ++ text)
              ⟨text, formatValueCompact value, pos, pos + text.utf8ByteSize,
                visualPos, visualPos + visualWidth text, depth, 15, 0⟩
          | none => st
        else st
      else if typ == "comparison" then
        if operator != "" then
          match listIndexOf (strBytes operator) (strBytes expr) with
          | some pos =>
            let visualPos0 := byteToVisualPos pos cps
            let visualPos := if visualPos0 == 0 && pos != 0 then pos else visualPos0
            addSeen st (toString visualPos ++ "-op-" ++ operator)
              ⟨operator, toString result, pos, pos + operator.utf8ByteSize,
                visualPos, visualPos + visualWidth operator, depth + 1, 5, 0⟩
          | none => st
        else st
      else if typ == "logical" then
        if operator != "" then
          match listIndexOf (strBytes operator) (strBytes expr) with
          | some pos =>
            let visualPos0 := byteToVisualPos pos cps
            let visualPos := if visualPos0 == 0 && pos != 0 then pos else visualPos0
            addSeen st (toString visualPos ++ "-log-" ++ operator)
              ⟨operator, toString result, pos, pos + operator.utf8ByteSize,
                visualPos, visualPos + visualWidth operator, depth + 1, 3, 0⟩
          | none => st
        else st
      else st
    let st1 := collectPositionsOpt expr cps left (depth + 1) st0
    let st2 := collectPositionsOpt expr cps right (depth + 1) st1
    collectPositionsList expr cps children (depth + 1) st2

def collectPositionsOpt (expr : String) (cps : List CharPosition) :
    Option EvaluationTree → Nat → List String × List ValuePosition →
      List String × List ValuePosition
  | none, _, st => st
  | some t, depth, st => collectPositionsDepth expr cps t depth st

def collectPositionsList (expr : String) (cps : List CharPosition) :
    List EvaluationTree → Nat → List String × List ValuePosition →
      List String × List ValuePosition
  | [], _, st => st
  | t :: ts, depth, st =>
    collectPositionsList expr cps ts depth (collectPositionsDepth expr cps t depth st)

end

/-- The comparator of the final `sort.Slice` in `extractAllPositions`:
visual position ascending, ties by priority descending (Go's sort is
unstable; this is one compliant order). -/
def posOrder (a b : ValuePosition) : Prop :=
  a.VisualPos < b.VisualPos ∨ (a.VisualPos = b.VisualPos ∧ b.Priority ≤ a.Priority)

instance : DecidableRel posOrder := fun a b => by
  unfold posOrder; infer_instance

/-- `formatter.extractAllPositions` (fallback method): collect from the
tree with a fresh position mapper, then sort. -/
def extractAllPositions (tree : EvaluationTree) (expr : String) : List ValuePosition :=
  let cps := calculateCharPositions expr
  let st := collectPositionsDepth expr cps tree 0 ([], [])
  List.insertionSort posOrder st.2

/-- `strings.TrimRight(s, " ")`. -/
def trimRightSpaces (s : String) : String :=
  String.mk ((s.data.reverse.dropWhile (fun c => c == ' ')).reverse)

/-- `formatter.buildColoredValueLine` with colors disabled (the plain
line): start from `maxWidth` spaces and write each node's value at its
pipe position, in-bounds positions only, never overwriting a column an
earlier node already wrote. -/
def buildValueLine (layer : List VisualNode) (maxWidth : Nat) : String :=
  let st := layer.foldl
    (fun (st : List Char × List Nat) node =>
      let value := node.Position.Value
      let startPos := node.PipePosition
      if startPos < st.1.length then
        value.data.enum.foldl
          (fun (st2 : List Char × List Nat) p =>
            if startPos + p.1 < st2.1.length && !(st2.2.contains (startPos + p.1)) then
              (st2.1.set (startPos + p.1) p.2, (startPos + p.1) :: st2.2)
            else st2)
          st
      else st)
    (List.replicate maxWidth ' ', [])
  String.mk st.1

/-- `formatter.buildPowerAssertTreeWithLayers` with color decoration
disabled (`colorizePerValuePipeLine` and value coloring are the identity
then): assign layers, then per layer emit the trimmed pipe line and
trimmed value line, skipping empty ones, with a blank separator between
layers. -/
def buildPowerAssertTreeWithLayers (expr : String) (positions : List ValuePosition) :
    List String :=
  if positions.length = 0 then ["false"]
  else
    let a := assignVisualLayers positions
    let exprWidth := visualWidth expr
    (List.range (a.MaxLayer + 1)).foldl
      (fun result layerIdx =>
        if layerIdx < a.Layers.length then
          let layer := a.Layers.getD layerIdx []
          if layer.length = 0 then result
          else
            let pipeStr := trimRightSpaces (String.mk (pipeLineFor a (exprWidth + 100) layerIdx))
            let result1 := if pipeStr != "" then result ++ [pipeStr] else result
            let valueStr := trimRightSpaces (buildValueLine layer (exprWidth + 100))
            let result2 := if valueStr != "" then result1 ++ [valueStr] else result1
            if layerIdx < a.MaxLayer then result2 ++ [""] else result2
        else result)
      []

/-- `formatter.buildUnicodeAwareLines`: `["false"]` when no position was
extracted, otherwise correct the positions and render by layers. -/
def buildUnicodeAwareLines (expr : String) (positions : List ValuePosition) :
    List String :=
  if positions.length = 0 then ["false"]
  else buildPowerAssertTreeWithLayers expr (correctVisualPositions positions expr)

/-- `formatter.formatSimpleAssertStyle` with colors disabled: the
expression line, then a single pipe at the expression's visual end, then
the word "false" at the same column. -/
def formatSimpleAssertStyle (expr : String) : String :=
  "  assert(" ++ expr ++ ")\n" ++
    "         " ++ String.mk (List.replicate (visualWidth expr) ' ') ++ "|" ++ "\n" ++
    "         " ++ String.mk (List.replicate (visualWidth expr) ' ') ++ "false" ++ "\n"

/-- `formatter.formatPowerAssertStyle` along the path taken for an
expression the Go parser rejects: `buildEvaluationTree` returned the
`error` root node (`Tree != nil`, so `formatSimpleAssertStyle` is NOT
taken), `extractAllPositionsWithAST` hits the same parse error and falls
back to `extractAllPositions`, and the collected positions are rendered
by `buildUnicodeAwareLines`. -/
def formatPowerAssertStyleUnparsable (expr : String) : String :=
  let tree := errorTree expr
  let positions := extractAllPositions tree expr
  let lines := buildUnicodeAwareLines expr positions
  "  assert(" ++ expr ++ ")\n" ++
    String.join (lines.map (fun line => "         " ++ line ++ "\n"))

/-- C6 (amended): for every expression the parser rejects, the pipeline
is total (no exception can reach the caller) and emits the expression
line followed by a single line holding the word "false" at the START of
the line — the error-typed root node yields no position, so
`buildUnicodeAwareLines` returns its literal `["false"]` fallback; the
form the claim describes (a single pipe and the result word at the
expression's visual end) is `formatSimpleAssertStyle`, which runs only
when no evaluation tree is present at all. -/
theorem C6_unparsable_degradation :
    ∀ expr : String,
      extractAllPositions (errorTree expr) expr = [] ∧
      formatPowerAssertStyleUnparsable expr =
        "  assert(" ++ expr ++ ")\n" ++ "         false\n" ∧
      formatSimpleAssertStyle expr =
        "  assert(" ++ expr ++ ")\n" ++
          "         " ++ String.mk (List.replicate (visualWidth expr) ' ') ++ "|" ++ "\n" ++
          "         " ++ String.mk (List.replicate (visualWidth expr) ' ') ++ "false" ++ "\n" := by
  intro expr
  refine ⟨rfl, ?_, rfl⟩
  show "  assert(" ++ expr ++ ")\n" ++
      String.join ((buildUnicodeAwareLines expr
        (extractAllPositions (errorTree expr) expr)).map
          (fun line => "         " ++ line ++ "\n")) =
    "  assert(" ++ expr ++ ")\n" ++ "         false\n"
  rfl

/-- Counterexample for C6 as stated, at the unparsable expression
"x >": the emitted diagnostic contains no pipe connector character at
all, and its second line is the word "false" right after the 9-column
indent (the start of the expression), not at the expression's visual
end. -/
theorem C6_counterexample :
    formatPowerAssertStyleUnparsable "x >" = "  assert(x >)\n         false\n" ∧
    (formatPowerAssertStyleUnparsable "x >").data.contains '|' = false := by
  constructor
  · rfl
  · decide
